import Mathlib

/-!
Verification of the forest-plot generator's statistical augmentation and
axis-tick-synthesis pipeline.  The definitions below are a shallow embedding
of the row augmenter, the marker-sizing code, the ratio-mode tick synthesis
and the tick-label formatting of the application's main page, with JavaScript
numbers modelled as real numbers and nullable fields as `Option`.
-/

namespace ForestPlot

/-- A raw parsed CSV row: `study` is required, the numeric fields are
nullable (`null` is modelled as `none`). -/
structure Row where
  study : String
  effect : Option ℝ
  ci_low : Option ℝ
  ci_high : Option ℝ
  weight : Option ℝ

/-- An augmented row: the raw row together with the computed standard error,
the pooling weight and the has-weight flag. -/
structure AugRow extends Row where
  se : Option ℝ
  weightCalc : ℝ
  hasWeight : Bool

/-- The per-row augmentation step: an explicit weight wins; missing numeric
fields give a zero-weight subheader row; otherwise the standard error is
derived from the confidence interval (in log space for ratio measures, with
the bounds clamped to the 1e-12 floor) and the weight is `1/se^2` when
`se > 0`, else `0`. -/
noncomputable def augmentRow (isRatio : Bool) (r : Row) : AugRow :=
  match r.weight with
  | some w => { r with se := none, weightCalc := w, hasWeight := true }
  | none =>
    match r.effect, r.ci_low, r.ci_high with
    | some _, some cl, some ch =>
      let low := if isRatio then max 1e-12 cl else cl
      let high := if isRatio then max 1e-12 ch else ch
      let se := if isRatio then (Real.log high - Real.log low) / (2 * 1.96)
                else (high - low) / (2 * 1.96)
      let weightCalc := if 0 < se then 1 / (se * se) else 0
      { r with se := some se, weightCalc := weightCalc, hasWeight := true }
    | _, _, _ => { r with se := none, weightCalc := 0, hasWeight := false }

/-- The augmenter maps the per-row step over the dataset. -/
noncomputable def augmented (isRatio : Bool) (rows : List Row) : List AugRow :=
  rows.map (augmentRow isRatio)

/-- The spec's worked example row: effect 1, confidence interval
[0.95, 1.65], no explicit weight. -/
def exampleRow : Row := ⟨"Example", some 1, some 0.95, some 1.65, none⟩

/-- The standard error computed for a complete weight-less row, as a
standalone expression. -/
noncomputable def seVal (isRatio : Bool) (cl ch : ℝ) : ℝ :=
  if isRatio
  then (Real.log (if isRatio then max 1e-12 ch else ch) -
        Real.log (if isRatio then max 1e-12 cl else cl)) / (2 * 1.96)
  else ((if isRatio then max 1e-12 ch else ch) -
        (if isRatio then max 1e-12 cl else cl)) / (2 * 1.96)

/-- Sum of all computed weights, as in the plot-data preparation. -/
noncomputable def totalWeight (rows : List AugRow) : ℝ :=
  (rows.map (fun r => r.weightCalc)).sum

/-- The divisor for marker sizing: the maximum of all row weights and the
floor 0.000001. -/
noncomputable def maxW (rows : List AugRow) : ℝ :=
  (rows.map (fun r => r.weightCalc)).foldl max 0.000001

/-- Marker diameters: share of the maximum weight scaled into [6, 34] and
multiplied by the user's diamond-size multiplier. -/
noncomputable def markerSizes (diamondScale : ℝ) (rows : List AugRow) : List ℝ :=
  rows.map (fun r => (r.weightCalc / maxW rows * 28 + 6) * diamondScale)

/-- The weight table cell: empty when the total weight is zero or the row
carries no weight, otherwise the row's percentage of the total. -/
noncomputable def weightCell (total : ℝ) (r : AugRow) : Option ℝ :=
  if total = 0 ∨ r.hasWeight = false then none
  else some (r.weightCalc / total * 100)

/-- All present x values of a dataset, row by row in the order
ci_low, ci_high, effect, as collected before the min/max computation. -/
def allX (rows : List AugRow) : List ℝ :=
  rows.flatMap (fun r => [r.ci_low, r.ci_high, r.effect].filterMap id)

/-- The dataset x range: (Math.min, Math.max) over the collected values,
falling back to (1, 1) when no values are present. -/
noncomputable def xRange (rows : List AugRow) : ℝ × ℝ :=
  match allX rows with
  | [] => (1, 1)
  | a :: l => (l.foldl min a, l.foldl max a)

/-- The lowest decade: floor of log10 of the clamped minimum. -/
noncomputable def decadeMin (xMin : ℝ) : ℤ :=
  ⌊Real.logb 10 (max xMin 1e-12)⌋

/-- The highest decade: ceiling of log10 of the clamped maximum. -/
noncomputable def decadeMax (xMax : ℝ) : ℤ :=
  ⌈Real.logb 10 (max xMax 1e-12)⌉

/-- The decades enumerated by the candidate-generation loop. -/
def decadeList (dmin dmax : ℤ) : List ℤ :=
  (List.range (dmax - dmin + 1).toNat).map (fun i => dmin + (i : ℤ))

/-- The full mantissa set. -/
def mantissasFull : List ℕ := [1, 2, 3, 4, 5, 6, 7, 8, 9]

/-- The reduced mantissa set. -/
def mantissasReduced : List ℕ := [1, 2, 5]

/-- Candidate tick values: mantissa times ten to the decade, decade-major. -/
noncomputable def genCandidates (ms : List ℕ) (dmin dmax : ℤ) : List ℝ :=
  (decadeList dmin dmax).flatMap (fun d => ms.map (fun m => (m : ℝ) * (10 : ℝ) ^ d))

/-- Keep only the candidates inside the closed dataset range. -/
noncomputable def filterRange (xMin xMax : ℝ) (l : List ℝ) : List ℝ :=
  l.filter (fun v => decide (xMin ≤ v ∧ v ≤ xMax))

/-- The filtered full-mantissa candidate list. -/
noncomputable def fullFiltered (xMin xMax : ℝ) : List ℝ :=
  filterRange xMin xMax (genCandidates mantissasFull (decadeMin xMin) (decadeMax xMax))

/-- The filtered reduced-mantissa candidate list. -/
noncomputable def reducedFiltered (xMin xMax : ℝ) : List ℝ :=
  filterRange xMin xMax (genCandidates mantissasReduced (decadeMin xMin) (decadeMax xMax))

/-- The candidate list after the overcrowding check: the reduced set replaces
the full set when the latter exceeds 12 entries. -/
noncomputable def tickCands (xMin xMax : ℝ) : List ℝ :=
  if 12 < (fullFiltered xMin xMax).length then reducedFiltered xMin xMax
  else fullFiltered xMin xMax

/-- The step count of the evenly-log-spaced fallback. -/
noncomputable def fallbackSteps (xMin xMax : ℝ) : ℤ :=
  min 6 (max 2 ⌈xMax / xMin⌉)

/-- The evenly-log-spaced fallback ticks used when no candidate survived. -/
noncomputable def fallbackTicks (xMin xMax : ℝ) : List ℝ :=
  (List.range ((fallbackSteps xMin xMax).toNat + 1)).map
    (fun (i : ℕ) => (10 : ℝ) ^ (Real.logb 10 xMin +
      (((i : ℕ) : ℝ) / ((fallbackSteps xMin xMax : ℤ) : ℝ)) *
        (Real.logb 10 xMax - Real.logb 10 xMin)))

/-- The synthesized ratio-mode tick values. -/
noncomputable def synthTicks (xMin xMax : ℝ) : List ℝ :=
  if (tickCands xMin xMax).length = 0 then fallbackTicks xMin xMax
  else tickCands xMin xMax

/-- A dataset whose three numeric entries are the negative values -5, -3. -/
def negCiRow : AugRow := ⟨⟨"N", some (-3), some (-5), some (-3), none⟩, none, 0, true⟩

/-- The x range the claim describes: every collected value clamped to the
positive floor 1e-12 before the min/max computation. -/
noncomputable def xRangeClamped (rows : List AugRow) : ℝ × ℝ :=
  match (allX rows).map (fun v => max v 1e-12) with
  | [] => (1, 1)
  | a :: l => (l.foldl min a, l.foldl max a)

/-- A dataset whose only numeric value is the negative effect -5. -/
def negEffectRow : AugRow := ⟨⟨"N", some (-5), none, none, none⟩, none, 0, true⟩

/-- Left-pad a digit string with zeros up to width p. -/
def padLeftZeros (p : ℕ) (s : String) : String :=
  String.mk (List.replicate (p - s.length) '0') ++ s

/-- Digits of m/10^p rendered with exactly p fractional digits. -/
def decCore (p : ℕ) (m : ℕ) : String :=
  toString (m / 10 ^ p) ++ "." ++ padLeftZeros p (toString (m % 10 ^ p))

/-- A scaled integer n rendered as n/10^p with exactly p fractional
digits, with a sign for negative n. -/
def decFixedStr (p : ℕ) (n : ℤ) : String :=
  if n < 0 then "-" ++ decCore p (-n).toNat else decCore p n.toNat

/-- The toFixed(p) rendering of a real number: round at p decimals, then
print with exactly p fractional digits (ties round up, as in the JS
specification). -/
noncomputable def toFixed (p : ℕ) (v : ℝ) : String :=
  decFixedStr p (round (v * 10 ^ p))

/-- Strip a leading zero that sits directly before the decimal point. -/
def stripLeadingZero (s : String) : String :=
  if s.take 2 = "0." then s.drop 1 else s

/-- The tick-label formatter: integers at or above one print plainly;
other values at or above one print rounded to one decimal with a trailing
.0 dropped (the parseFloat round-trip); values below one print with one
decimal (two below 0.1) and the leading zero stripped. -/
noncomputable def fmtVal (v : ℝ) : String :=
  if 1 ≤ v then
    if (⌊v⌋ : ℝ) = v then toString ⌊v⌋
    else
      if round (v * 10) % 10 = 0 then toString (round (v * 10) / 10)
      else toString (round (v * 10) / 10) ++ "." ++ toString (round (v * 10) % 10)
  else
    stripLeadingZero (toFixed (if (0.1 : ℝ) ≤ v then 1 else 2) v)

/-- The formatter the claim describes: identical below one, but every
non-integer value at or above one keeps its one decimal place. -/
noncomputable def fmtValSpec (v : ℝ) : String :=
  if 1 ≤ v then
    if (⌊v⌋ : ℝ) = v then toString ⌊v⌋
    else toString (round (v * 10) / 10) ++ "." ++ toString (round (v * 10) % 10)
  else
    stripLeadingZero (toFixed (if (0.1 : ℝ) ≤ v then 1 else 2) v)

/-- The tick-value sequence of the ratio-mode tick plan, reversed when the
mirror option is set. -/
noncomputable def tickvals (mirrorX : Bool) (rows : List AugRow) : List ℝ :=
  if mirrorX then (synthTicks (xRange rows).1 (xRange rows).2).reverse
  else synthTicks (xRange rows).1 (xRange rows).2

/-- The tick-label sequence: the formatted tick values, reversed when the
mirror option is set. -/
noncomputable def ticktext (mirrorX : Bool) (rows : List AugRow) : List String :=
  if mirrorX then ((synthTicks (xRange rows).1 (xRange rows).2).map fmtVal).reverse
  else (synthTicks (xRange rows).1 (xRange rows).2).map fmtVal



/-- Bounds on the natural logarithm of 33/19 = 1.65/0.95, obtained from the
power series of log (1 - x) at x = 14/33. -/
lemma log_33_div_19_bounds :
    0.552 < Real.log (33 / 19) ∧ Real.log (33 / 19) < 0.5522 := by
  have hx : |(14 / 33 : ℝ)| < 1 := by rw [abs_of_pos] <;> norm_num
  have h := Real.abs_log_sub_add_sum_range_le hx 11
  have h19 : (1 : ℝ) - 14 / 33 = 19 / 33 := by norm_num
  rw [h19] at h
  have hlog : Real.log (19 / 33) = -Real.log (33 / 19) := by
    rw [← Real.log_inv]
    norm_num
  rw [hlog, abs_of_pos (by norm_num : (0:ℝ) < 14 / 33)] at h
  have hs : (∑ i ∈ Finset.range 11, (14 / 33 : ℝ) ^ (i + 1) / (i + 1)) =
      102309068501742620 / 185321057216998329 := by
    simp only [Finset.sum_range_succ, Finset.sum_range_zero]
    norm_num
  rw [hs] at h
  have herr : (14 / 33 : ℝ) ^ (11 + 1) / (1 - 14 / 33) ≤ 6 / 100000 := by norm_num
  rw [abs_le] at h
  obtain ⟨h1, h2⟩ := h
  constructor <;> linarith

/-- Unfolding the augmenter on a complete weight-less row. -/
lemma augmentRow_ci (isRatio : Bool) (study : String) (e cl ch : ℝ) :
    augmentRow isRatio ⟨study, some e, some cl, some ch, none⟩ =
      ⟨⟨study, some e, some cl, some ch, none⟩, some (seVal isRatio cl ch),
        if 0 < seVal isRatio cl ch
        then 1 / (seVal isRatio cl ch * seVal isRatio cl ch) else 0, true⟩ := rfl

/-- In ratio mode the example row's standard error is log(33/19)/(2*1.96). -/
lemma exampleRow_se : seVal true 0.95 1.65 = Real.log (33 / 19) / (2 * 1.96) := by
  rw [seVal, if_pos rfl, if_pos rfl, if_pos rfl,
    (by norm_num : max (1e-12 : ℝ) 1.65 = 1.65),
    (by norm_num : max (1e-12 : ℝ) 0.95 = 0.95),
    ← Real.log_div (by norm_num) (by norm_num),
    (by norm_num : (1.65 : ℝ) / 0.95 = 33 / 19)]

/-- The example row's standard error lies strictly between 0.552/3.92 and
0.5522/3.92. -/
lemma exampleRow_se_bounds :
    0.552 / 3.92 < seVal true 0.95 1.65 ∧ seVal true 0.95 1.65 < 0.5522 / 3.92 := by
  rw [exampleRow_se, (by norm_num : (2 : ℝ) * 1.96 = 3.92)]
  obtain ⟨hl, hr⟩ := log_33_div_19_bounds
  have h392 : (0 : ℝ) < 3.92 := by norm_num
  exact ⟨(div_lt_div_iff_of_pos_right h392).mpr hl, (div_lt_div_iff_of_pos_right h392).mpr hr⟩

/-- C1: for a row with no explicit weight and all of effect, ci_low, ci_high
present, the augmenter clamps the bounds to 1e-12 in ratio mode, computes
se = (log high - log low)/(2 * 1.96) (ratio) or (high - low)/(2 * 1.96)
(linear), sets weightCalc = 1/se^2 when se > 0 and 0 otherwise, and sets
hasWeight; on the worked example (effect 1, CI [0.95, 1.65], ratio mode)
se is within 1/2000 of 0.1411 and weightCalc within 1/4 of 50.2. -/
theorem c1_ci_derived_se_and_weight (isRatio : Bool) (r : Row) (e cl ch : ℝ)
    (hw : r.weight = none) (he : r.effect = some e)
    (hl : r.ci_low = some cl) (hh : r.ci_high = some ch) :
    ((augmentRow isRatio r).hasWeight = true) ∧
    ((augmentRow isRatio r).se = some (if isRatio
        then (Real.log (max 1e-12 ch) - Real.log (max 1e-12 cl)) / (2 * 1.96)
        else (ch - cl) / (2 * 1.96))) ∧
    (∀ s : ℝ, (augmentRow isRatio r).se = some s →
        (augmentRow isRatio r).weightCalc = if 0 < s then 1 / (s * s) else 0) ∧
    (∃ s : ℝ, (augmentRow true exampleRow).se = some s ∧
        |s - 0.1411| < 1 / 2000 ∧
        |(augmentRow true exampleRow).weightCalc - 50.2| < 1 / 4) := by
  obtain ⟨study, effect, cilow, cihigh, wt⟩ := r
  obtain rfl : wt = none := hw
  obtain rfl : effect = some e := he
  obtain rfl : cilow = some cl := hl
  obtain rfl : cihigh = some ch := hh
  have hseval : seVal isRatio cl ch = (if isRatio
      then (Real.log (max 1e-12 ch) - Real.log (max 1e-12 cl)) / (2 * 1.96)
      else (ch - cl) / (2 * 1.96)) := by
    cases isRatio <;> simp [seVal]
  refine ⟨?_, ?_, fun s hs => ?_, ?_⟩
  · rw [augmentRow_ci]
  · rw [augmentRow_ci, hseval]
  · rw [augmentRow_ci] at hs ⊢
    obtain rfl : seVal isRatio cl ch = s := by injection hs
    rfl
  · obtain ⟨h1, h2⟩ := exampleRow_se_bounds
    set s := seVal true 0.95 1.65 with hsdef
    have hpos : 0 < s := lt_trans (by norm_num) h1
    refine ⟨s, ?_, ?_, ?_⟩
    · rw [show exampleRow = ⟨"Example", some 1, some 0.95, some 1.65, none⟩ from rfl,
        augmentRow_ci]
    · rw [abs_sub_lt_iff]
      constructor <;> linarith
    · rw [show exampleRow = ⟨"Example", some 1, some 0.95, some 1.65, none⟩ from rfl,
        augmentRow_ci]
      show |(if 0 < s then 1 / (s * s) else 0) - 50.2| < 1 / 4
      rw [if_pos hpos]
      have hb1 : 1 / (s * s) < 50.45 := by
        rw [div_lt_iff₀ (by positivity)]
        nlinarith
      have hb2 : 49.95 < 1 / (s * s) := by
        rw [lt_div_iff₀ (by positivity)]
        nlinarith
      rw [abs_sub_lt_iff]
      constructor <;> linarith

/-- Witness for C1 at the worked example row itself. -/
theorem c1_ci_derived_se_and_weight_witness :
    (augmentRow true exampleRow).hasWeight = true ∧
    (∃ s : ℝ, (augmentRow true exampleRow).se = some s ∧
        |s - 0.1411| < 1 / 2000 ∧
        |(augmentRow true exampleRow).weightCalc - 50.2| < 1 / 4) := by
  obtain ⟨h1, _, _, h4⟩ :=
    c1_ci_derived_se_and_weight true exampleRow 1 0.95 1.65 rfl rfl rfl rfl
  exact ⟨h1, h4⟩

/-- C5: for every row whose weight field is present, and for either value of
isRatio, the augmenter returns weightCalc exactly equal to the supplied
weight, se absent, and hasWeight true. -/
theorem c5_explicit_weight_wins (isRatio : Bool) (r : Row) (w : ℝ)
    (hw : r.weight = some w) :
    (augmentRow isRatio r).weightCalc = w ∧
    (augmentRow isRatio r).se = none ∧
    (augmentRow isRatio r).hasWeight = true := by
  obtain ⟨study, effect, cl, ch, wt⟩ := r
  cases wt with
  | none => cases hw
  | some w0 =>
    obtain rfl : w0 = w := by injection hw
    exact ⟨rfl, rfl, rfl⟩

/-- Witness for C5 at a concrete row with an explicit weight. -/
theorem c5_explicit_weight_wins_witness :
    (augmentRow true ⟨"A", some 2, some 1, some 3, some 7⟩).weightCalc = 7 ∧
    (augmentRow true ⟨"A", some 2, some 1, some 3, some 7⟩).se = none ∧
    (augmentRow true ⟨"A", some 2, some 1, some 3, some 7⟩).hasWeight = true :=
  c5_explicit_weight_wins true ⟨"A", some 2, some 1, some 3, some 7⟩ 7 rfl

/-- Rows the augmenter marks as carrying no weight always carry the weight
value zero. -/
lemma augmentRow_weightCalc_of_not_hasWeight (isRatio : Bool) (r : Row)
    (h : (augmentRow isRatio r).hasWeight = false) :
    (augmentRow isRatio r).weightCalc = 0 := by
  obtain ⟨study, effect, cilow, cihigh, wt⟩ := r
  cases wt with
  | some w => cases h
  | none =>
    cases effect with
    | none => rfl
    | some e =>
      cases cilow with
      | none => rfl
      | some cl =>
        cases cihigh with
        | none => rfl
        | some ch => cases h

/-- The seed is a lower bound of a left max-fold. -/
lemma le_foldl_max (l : List ℝ) : ∀ a : ℝ, a ≤ l.foldl max a := by
  induction l with
  | nil => intro a; exact le_refl a
  | cons b t ih =>
    intro a
    exact le_trans (le_max_left a b) (ih (max a b))

/-- Every element of a list is bounded by a left max-fold over it. -/
lemma mem_le_foldl_max (l : List ℝ) : ∀ (a x : ℝ), x ∈ l → x ≤ l.foldl max a := by
  induction l with
  | nil => intro a x hx; cases hx
  | cons b t ih =>
    intro a x hx
    rcases List.mem_cons.mp hx with rfl | hx
    · exact le_trans (le_max_right a x) (le_foldl_max t (max a x))
    · exact ih (max a b) x hx

/-- C9: the marker-sizing divisor maxW is at least the 0.000001 floor and at
least every row weight, hence nonzero; and when every row weight is zero,
every marker size is exactly the minimum 6 times the multiplier. -/
theorem c9_marker_sizing_divisor_safe (diamondScale : ℝ) (rows : List AugRow) :
    (0.000001 ≤ maxW rows ∧ maxW rows ≠ 0) ∧
    (∀ r ∈ rows, r.weightCalc ≤ maxW rows) ∧
    ((∀ r ∈ rows, r.weightCalc = 0) →
      markerSizes diamondScale rows = rows.map (fun _ => 6 * diamondScale)) := by
  have hfloor : (0.000001 : ℝ) ≤ maxW rows := le_foldl_max _ _
  refine ⟨⟨hfloor, by intro h; rw [h] at hfloor; norm_num at hfloor⟩, ?_, ?_⟩
  · intro r hr
    exact mem_le_foldl_max _ _ _ (List.mem_map_of_mem (fun r => r.weightCalc) hr)
  · intro hz
    apply List.map_congr_left
    intro r hr
    rw [hz r hr]
    norm_num

/-- Witness for C9: a dataset whose only row has weight zero gets the
minimum marker size scaled by the multiplier 2. -/
theorem c9_marker_sizing_divisor_safe_witness :
    (∀ r ∈ [(⟨⟨"Z", none, none, none, none⟩, none, 0, false⟩ : AugRow)],
        r.weightCalc = 0) ∧
    markerSizes 2 [(⟨⟨"Z", none, none, none, none⟩, none, 0, false⟩ : AugRow)] =
      [(⟨⟨"Z", none, none, none, none⟩, none, 0, false⟩ : AugRow)].map
        (fun _ => 6 * 2) := by
  have hz : ∀ r ∈ [(⟨⟨"Z", none, none, none, none⟩, none, 0, false⟩ : AugRow)],
      r.weightCalc = 0 := by
    intro r hr
    rcases List.mem_cons.mp hr with rfl | hr
    · rfl
    · cases hr
  exact ⟨hz, (c9_marker_sizing_divisor_safe 2 _).2.2 hz⟩

/-- Dropping the zero-weight no-weight rows does not change a sum of
weights. -/
lemma sum_weights_filter (L : List AugRow)
    (h : ∀ r ∈ L, r.hasWeight = false → r.weightCalc = 0) :
    (L.map (fun r => r.weightCalc)).sum =
      ((L.filter (fun r => r.hasWeight)).map (fun r => r.weightCalc)).sum := by
  induction L with
  | nil => rfl
  | cons r t ih =>
    have ht : ∀ x ∈ t, x.hasWeight = false → x.weightCalc = 0 := by
      intro x hx
      exact h x (List.mem_cons_of_mem r hx)
    cases hr : r.hasWeight with
    | true =>
      rw [List.filter_cons_of_pos (by simp [hr])]
      simp only [List.map_cons, List.sum_cons, ih ht]
    | false =>
      rw [List.filter_cons_of_neg (by simp [hr])]
      simp only [List.map_cons, List.sum_cons, h r (List.mem_cons_self r t) hr,
        zero_add, ih ht]

/-- Dropping the zero-weight no-weight rows does not change the max-fold
either, for a nonnegative seed. -/
lemma foldl_max_weights_filter (L : List AugRow)
    (h : ∀ r ∈ L, r.hasWeight = false → r.weightCalc = 0) :
    ∀ a : ℝ, 0 ≤ a →
      (L.map (fun r => r.weightCalc)).foldl max a =
        ((L.filter (fun r => r.hasWeight)).map (fun r => r.weightCalc)).foldl max a := by
  induction L with
  | nil => intro a _; rfl
  | cons r t ih =>
    intro a ha
    have ht : ∀ x ∈ t, x.hasWeight = false → x.weightCalc = 0 := by
      intro x hx
      exact h x (List.mem_cons_of_mem r hx)
    cases hr : r.hasWeight with
    | true =>
      rw [List.filter_cons_of_pos (by simp [hr])]
      simp only [List.map_cons, List.foldl_cons]
      exact ih ht (max a r.weightCalc) (le_trans ha (le_max_left a _))
    | false =>
      rw [List.filter_cons_of_neg (by simp [hr])]
      simp only [List.map_cons, List.foldl_cons, h r (List.mem_cons_self r t) hr,
        max_eq_left ha]
      exact ih ht a ha

/-- C7: the total weight equals the sum of weights over has-weight rows
only (no-weight rows contribute nothing to the total nor to the marker
sizing divisor); each displayed percentage is weightCalc / total * 100; and
when the total is positive the percentages over the has-weight rows sum to
exactly 100. -/
theorem c7_total_weight_and_percentages (isRatio : Bool) (rows : List Row) :
    (totalWeight (augmented isRatio rows) =
      (((augmented isRatio rows).filter (fun r => r.hasWeight)).map
        (fun r => r.weightCalc)).sum) ∧
    (maxW (augmented isRatio rows) =
      maxW ((augmented isRatio rows).filter (fun r => r.hasWeight))) ∧
    (∀ r ∈ augmented isRatio rows, r.hasWeight = true →
      totalWeight (augmented isRatio rows) ≠ 0 →
      weightCell (totalWeight (augmented isRatio rows)) r =
        some (r.weightCalc / totalWeight (augmented isRatio rows) * 100)) ∧
    (0 < totalWeight (augmented isRatio rows) →
      (((augmented isRatio rows).filter (fun r => r.hasWeight)).map
        (fun r => r.weightCalc / totalWeight (augmented isRatio rows) * 100)).sum
        = 100) := by
  have hzero : ∀ r ∈ augmented isRatio rows, r.hasWeight = false → r.weightCalc = 0 := by
    intro r hr
    obtain ⟨r0, _, rfl⟩ := List.mem_map.mp hr
    exact augmentRow_weightCalc_of_not_hasWeight isRatio r0
  refine ⟨sum_weights_filter _ hzero, ?_, ?_, ?_⟩
  · exact foldl_max_weights_filter _ hzero 0.000001 (by norm_num)
  · intro r _ hrw htot
    rw [weightCell, if_neg]
    intro hor
    rcases hor with h0 | hfalse
    · exact htot h0
    · rw [hrw] at hfalse
      cases hfalse
  · intro hpos
    have hT : totalWeight (augmented isRatio rows) ≠ 0 := ne_of_gt hpos
    set T := totalWeight (augmented isRatio rows) with hTdef
    have hmap : (((augmented isRatio rows).filter (fun r => r.hasWeight)).map
        (fun r => r.weightCalc / T * 100)).sum =
        (((augmented isRatio rows).filter (fun r => r.hasWeight)).map
          (fun r => r.weightCalc * (100 / T))).sum := by
      apply congrArg
      apply List.map_congr_left
      intro r _
      ring
    rw [hmap, List.sum_map_mul_right, ← sum_weights_filter _ hzero]
    have hsum : (List.map (fun r => r.weightCalc) (augmented isRatio rows)).sum = T := rfl
    rw [hsum]
    field_simp

/-- Witness for C7: one explicitly weighted row plus one subheader row; the
total is 3 and the single percentage is 100. -/
theorem c7_total_weight_and_percentages_witness :
    totalWeight (augmented true [⟨"A", none, none, none, some 3⟩, ⟨"S", none, none, none, none⟩]) = 3 ∧
    (0 < totalWeight (augmented true [⟨"A", none, none, none, some 3⟩, ⟨"S", none, none, none, none⟩])) ∧
    (((augmented true [⟨"A", none, none, none, some 3⟩, ⟨"S", none, none, none, none⟩]).filter
        (fun r => r.hasWeight)).map
      (fun r => r.weightCalc /
        totalWeight (augmented true [⟨"A", none, none, none, some 3⟩, ⟨"S", none, none, none, none⟩]) * 100)).sum
      = 100 := by
  have h3 : totalWeight (augmented true [⟨"A", none, none, none, some 3⟩,
      ⟨"S", none, none, none, none⟩]) = 3 := by
    show ((3 : ℝ) + (0 + 0)) = 3
    norm_num
  have hpos : (0 : ℝ) <
      totalWeight (augmented true [⟨"A", none, none, none, some 3⟩,
        ⟨"S", none, none, none, none⟩]) := by
    rw [h3]
    norm_num
  exact ⟨h3, hpos,
    (c7_total_weight_and_percentages true
      [⟨"A", none, none, none, some 3⟩, ⟨"S", none, none, none, none⟩]).2.2.2 hpos⟩

/-- C10: a complete weight-less row whose interval is inverted after the
ratio-mode clamp gets a negative standard error, weight zero and
hasWeight true, so with a positive total it renders as a zero percentage
rather than an empty weight cell. -/
theorem c10_inverted_ci_zero_weight (isRatio : Bool) (r : Row) (e cl ch : ℝ)
    (hw : r.weight = none) (he : r.effect = some e)
    (hl : r.ci_low = some cl) (hh : r.ci_high = some ch)
    (hinv : (if isRatio then max 1e-12 ch else ch) <
      (if isRatio then max 1e-12 cl else cl)) :
    (∃ s : ℝ, (augmentRow isRatio r).se = some s ∧ s < 0) ∧
    (augmentRow isRatio r).weightCalc = 0 ∧
    (augmentRow isRatio r).hasWeight = true ∧
    (∀ total : ℝ, 0 < total →
      weightCell total (augmentRow isRatio r) = some 0) := by
  obtain ⟨study, effect, cilow, cihigh, wt⟩ := r
  obtain rfl : wt = none := hw
  obtain rfl : effect = some e := he
  obtain rfl : cilow = some cl := hl
  obtain rfl : cihigh = some ch := hh
  have hneg : seVal isRatio cl ch < 0 := by
    cases isRatio with
    | true =>
      have hinv' : max 1e-12 ch < max 1e-12 cl := by simpa using hinv
      have hpos : (0 : ℝ) < max 1e-12 ch :=
        lt_of_lt_of_le (by norm_num) (le_max_left _ _)
      have hlog := Real.log_lt_log hpos hinv'
      have hse : seVal true cl ch =
          (Real.log (max 1e-12 ch) - Real.log (max 1e-12 cl)) / (2 * 1.96) := by
        simp [seVal]
      rw [hse]
      exact div_neg_of_neg_of_pos (by linarith) (by norm_num)
    | false =>
      have hinv' : ch < cl := by simpa using hinv
      have hse : seVal false cl ch = (ch - cl) / (2 * 1.96) := by
        simp [seVal]
      rw [hse]
      exact div_neg_of_neg_of_pos (by linarith) (by norm_num)
  have hwc : (augmentRow isRatio ⟨study, some e, some cl, some ch, none⟩).weightCalc = 0 := by
    rw [augmentRow_ci]
    show (if 0 < seVal isRatio cl ch then 1 / (seVal isRatio cl ch * seVal isRatio cl ch)
      else 0) = 0
    rw [if_neg (not_lt.mpr (le_of_lt hneg))]
  refine ⟨⟨seVal isRatio cl ch, by rw [augmentRow_ci], hneg⟩, hwc, by rw [augmentRow_ci], ?_⟩
  intro total htot
  rw [weightCell, if_neg, hwc]
  · rw [zero_div, zero_mul]
  · intro hor
    rcases hor with h0 | hfalse
    · exact (ne_of_gt htot) h0
    · rw [augmentRow_ci] at hfalse
      cases hfalse

/-- Witness for C10 at a concrete inverted interval in ratio mode. -/
theorem c10_inverted_ci_zero_weight_witness :
    ((if true then max 1e-12 (1:ℝ) else (1:ℝ)) <
      (if true then max 1e-12 (2:ℝ) else (2:ℝ))) ∧
    (∃ s : ℝ, (augmentRow true ⟨"W", some 1, some 2, some 1, none⟩).se = some s ∧ s < 0) ∧
    (augmentRow true ⟨"W", some 1, some 2, some 1, none⟩).weightCalc = 0 := by
  have hinv : ((if true then max 1e-12 (1:ℝ) else (1:ℝ)) <
      (if true then max 1e-12 (2:ℝ) else (2:ℝ))) := by
    simp only [if_pos rfl]
    rw [(by norm_num : max (1e-12:ℝ) 1 = 1), (by norm_num : max (1e-12:ℝ) 2 = 2)]
    norm_num
  obtain ⟨hse, hwc, _, _⟩ :=
    c10_inverted_ci_zero_weight true ⟨"W", some 1, some 2, some 1, none⟩ 1 2 1
      rfl rfl rfl rfl hinv
  exact ⟨hinv, hse, hwc⟩

/-- Floor of a base-10 logarithm from power bounds. -/
lemma floor_logb10_eq (x : ℝ) (d : ℤ) (hx : 0 < x)
    (h1 : (10 : ℝ) ^ d ≤ x) (h2 : x < (10 : ℝ) ^ (d + 1)) :
    ⌊Real.logb 10 x⌋ = d := by
  rw [Int.floor_eq_iff]
  constructor
  · rw [Real.le_logb_iff_rpow_le (by norm_num) hx, Real.rpow_intCast]
    exact h1
  · have hcast : ((d : ℝ) + 1) = ((d + 1 : ℤ) : ℝ) := by push_cast; ring
    rw [hcast, Real.logb_lt_iff_lt_rpow (by norm_num) hx, Real.rpow_intCast]
    exact h2

/-- Ceiling of a base-10 logarithm from power bounds. -/
lemma ceil_logb10_eq (x : ℝ) (d : ℤ) (hx : 0 < x)
    (h1 : (10 : ℝ) ^ (d - 1) < x) (h2 : x ≤ (10 : ℝ) ^ d) :
    ⌈Real.logb 10 x⌉ = d := by
  rw [Int.ceil_eq_iff]
  constructor
  · have hcast : ((d : ℝ) - 1) = ((d - 1 : ℤ) : ℝ) := by push_cast; ring
    rw [hcast, Real.lt_logb_iff_rpow_lt (by norm_num) hx, Real.rpow_intCast]
    exact h1
  · rw [Real.logb_le_iff_le_rpow (by norm_num) hx, Real.rpow_intCast]
    exact h2

/-- On the spec's 0.3 dataset minimum the lowest decade is -1. -/
lemma decadeMin_03 : decadeMin 0.3 = -1 := by
  rw [decadeMin, (by norm_num : max (0.3 : ℝ) 1e-12 = 0.3)]
  exact floor_logb10_eq 0.3 (-1) (by norm_num) (by norm_num) (by norm_num)

/-- On the spec's 12 dataset maximum the highest decade is 2. -/
lemma decadeMax_12 : decadeMax 12 = 2 := by
  rw [decadeMax, (by norm_num : max (12 : ℝ) 1e-12 = 12)]
  exact ceil_logb10_eq 12 2 (by norm_num) (by norm_num) (by norm_num)

/-- The filtered full-mantissa list for the range [0.3, 12], explicitly. -/
lemma fullFiltered_03_12 : fullFiltered 0.3 12 =
    [0.3, 0.4, 0.5, 0.6, 0.7, 0.8, 0.9, 1, 2, 3, 4, 5, 6, 7, 8, 9, 10] := by
  rw [fullFiltered, decadeMin_03, decadeMax_12, genCandidates,
    (by decide : decadeList (-1) 2 = [-1, 0, 1, 2])]
  have hgen : (([-1, 0, 1, 2] : List ℤ).flatMap
      (fun d => mantissasFull.map (fun m => (m : ℝ) * (10 : ℝ) ^ d))) =
      [0.1, 0.2, 0.3, 0.4, 0.5, 0.6, 0.7, 0.8, 0.9,
       1, 2, 3, 4, 5, 6, 7, 8, 9,
       10, 20, 30, 40, 50, 60, 70, 80, 90,
       100, 200, 300, 400, 500, 600, 700, 800, 900] := by
    norm_num [mantissasFull, List.flatMap]
  rw [hgen]
  norm_num [filterRange, List.filter_cons]

/-- The filtered reduced-mantissa list for the range [0.3, 12], explicitly. -/
lemma reducedFiltered_03_12 : reducedFiltered 0.3 12 = [0.5, 1, 2, 5, 10] := by
  rw [reducedFiltered, decadeMin_03, decadeMax_12, genCandidates,
    (by decide : decadeList (-1) 2 = [-1, 0, 1, 2])]
  have hgen : (([-1, 0, 1, 2] : List ℤ).flatMap
      (fun d => mantissasReduced.map (fun m => (m : ℝ) * (10 : ℝ) ^ d))) =
      [0.1, 0.2, 0.5, 1, 2, 5, 10, 20, 50, 100, 200, 500] := by
    norm_num [mantissasReduced, List.flatMap]
  rw [hgen]
  norm_num [filterRange, List.filter_cons]

/-- The full-mantissa list for [0.3, 12] is overcrowded: 17 entries. -/
lemma fullFiltered_03_12_overcrowded : 12 < (fullFiltered 0.3 12).length := by
  rw [fullFiltered_03_12]
  norm_num

/-- The synthesized ticks for [0.3, 12] are the reduced candidates. -/
lemma synthTicks_03_12 : synthTicks 0.3 12 = [0.5, 1, 2, 5, 10] := by
  have hc : tickCands 0.3 12 = [0.5, 1, 2, 5, 10] := by
    rw [tickCands, if_pos fullFiltered_03_12_overcrowded, reducedFiltered_03_12]
  rw [synthTicks, hc]
  norm_num

/-- C2: the ticks synthesized for the dataset range [0.3, 12] number at
most 12; and in general, whenever the filtered full-mantissa candidate list
has more than 12 entries it is discarded and the filtered reduced-mantissa
list is used in its place. -/
theorem c2_overcrowding_reduction :
    (synthTicks 0.3 12).length ≤ 12 ∧
    (∀ xMin xMax : ℝ, 12 < (fullFiltered xMin xMax).length →
      tickCands xMin xMax = reducedFiltered xMin xMax) := by
  constructor
  · rw [synthTicks_03_12]
    norm_num
  · intro xMin xMax h
    rw [tickCands, if_pos h]

/-- Witness for C2 at the range [0.3, 12], where the full set has 17
entries and the reduced set is taken. -/
theorem c2_overcrowding_reduction_witness :
    12 < (fullFiltered 0.3 12).length ∧
    tickCands 0.3 12 = reducedFiltered 0.3 12 :=
  ⟨fullFiltered_03_12_overcrowded,
    c2_overcrowding_reduction.2 0.3 12 fullFiltered_03_12_overcrowded⟩

/-- A left min-fold is bounded by its seed. -/
lemma foldl_min_le_self (l : List ℝ) : ∀ a : ℝ, l.foldl min a ≤ a := by
  induction l with
  | nil => intro a; exact le_refl a
  | cons b t ih =>
    intro a
    exact le_trans (ih (min a b)) (min_le_left a b)

/-- A left min-fold bounds every list element. -/
lemma foldl_min_le_of_mem (l : List ℝ) :
    ∀ (a x : ℝ), x ∈ l → l.foldl min a ≤ x := by
  induction l with
  | nil => intro a x hx; cases hx
  | cons b t ih =>
    intro a x hx
    rcases List.mem_cons.mp hx with rfl | hx
    · exact le_trans (foldl_min_le_self t (min a x)) (min_le_right a x)
    · exact ih (min a b) x hx

/-- The dataset minimum never exceeds the dataset maximum. -/
lemma xRange_fst_le_snd (rows : List AugRow) : (xRange rows).1 ≤ (xRange rows).2 := by
  cases h : allX rows with
  | nil => simp [xRange, h]
  | cons a l =>
    simp only [xRange, h]
    exact le_trans (foldl_min_le_self l a) (le_foldl_max l a)

/-- Membership in a range-filtered list gives the range bounds. -/
lemma mem_filterRange (xMin xMax v : ℝ) (l : List ℝ)
    (hv : v ∈ filterRange xMin xMax l) : xMin ≤ v ∧ v ≤ xMax := by
  have h := (List.mem_filter.mp hv).2
  simpa using h

/-- Every fallback tick lies inside the dataset range, provided the range is
positive. -/
lemma mem_fallbackTicks (xMin xMax : ℝ) (h0 : 0 < xMin) (hle : xMin ≤ xMax) :
    ∀ t ∈ fallbackTicks xMin xMax, xMin ≤ t ∧ t ≤ xMax := by
  intro t ht
  rw [fallbackTicks] at ht
  obtain ⟨i, hi, rfl⟩ := List.mem_map.mp ht
  have hmax0 : 0 < xMax := lt_of_lt_of_le h0 hle
  have hs2 : (2 : ℤ) ≤ fallbackSteps xMin xMax :=
    le_min (by norm_num) (le_max_left 2 _)
  have hsR : (0 : ℝ) < ((fallbackSteps xMin xMax : ℤ) : ℝ) := by
    exact_mod_cast lt_of_lt_of_le (by norm_num) hs2
  have hiN : (i : ℝ) ≤ ((fallbackSteps xMin xMax : ℤ) : ℝ) := by
    have h1 : i ≤ (fallbackSteps xMin xMax).toNat :=
      Nat.lt_succ_iff.mp (List.mem_range.mp hi)
    have h2 : ((i : ℕ) : ℤ) ≤ (((fallbackSteps xMin xMax).toNat : ℕ) : ℤ) := by
      exact_mod_cast h1
    rw [Int.toNat_of_nonneg (by linarith : (0 : ℤ) ≤ fallbackSteps xMin xMax)] at h2
    exact_mod_cast h2
  have ht0 : 0 ≤ (i : ℝ) / ((fallbackSteps xMin xMax : ℤ) : ℝ) :=
    div_nonneg (Nat.cast_nonneg i) (le_of_lt hsR)
  have ht1 : (i : ℝ) / ((fallbackSteps xMin xMax : ℤ) : ℝ) ≤ 1 :=
    (div_le_one hsR).mpr hiN
  have hlog : Real.logb 10 xMin ≤ Real.logb 10 xMax :=
    Real.logb_le_logb_of_le (by norm_num) h0 hle
  have hprod0 : 0 ≤ ((i : ℝ) / ((fallbackSteps xMin xMax : ℤ) : ℝ)) *
      (Real.logb 10 xMax - Real.logb 10 xMin) :=
    mul_nonneg ht0 (sub_nonneg.mpr hlog)
  have hprod1 : (1 - (i : ℝ) / ((fallbackSteps xMin xMax : ℤ) : ℝ)) *
      (Real.logb 10 xMax - Real.logb 10 xMin) ≥ 0 :=
    mul_nonneg (sub_nonneg.mpr ht1) (sub_nonneg.mpr hlog)
  constructor
  · have hstep : (10 : ℝ) ^ Real.logb 10 xMin ≤
        (10 : ℝ) ^ (Real.logb 10 xMin +
          (((i : ℕ) : ℝ) / ((fallbackSteps xMin xMax : ℤ) : ℝ)) *
            (Real.logb 10 xMax - Real.logb 10 xMin)) := by
      rw [Real.rpow_le_rpow_left_iff (by norm_num : (1 : ℝ) < 10)]
      linarith
    have hbase : (10 : ℝ) ^ Real.logb 10 xMin = xMin :=
      Real.rpow_logb (by norm_num) (by norm_num) h0
    linarith [hstep, hbase.ge, hbase.le]
  · have hstep : (10 : ℝ) ^ (Real.logb 10 xMin +
        (((i : ℕ) : ℝ) / ((fallbackSteps xMin xMax : ℤ) : ℝ)) *
          (Real.logb 10 xMax - Real.logb 10 xMin)) ≤
        (10 : ℝ) ^ Real.logb 10 xMax := by
      rw [Real.rpow_le_rpow_left_iff (by norm_num : (1 : ℝ) < 10)]
      nlinarith
    have hbase : (10 : ℝ) ^ Real.logb 10 xMax = xMax :=
      Real.rpow_logb (by norm_num) (by norm_num) hmax0
    linarith [hstep, hbase.ge, hbase.le]

/-- C3 (amended): when the dataset minimum is positive, every synthesized
tick lies inside the closed dataset range, on all three paths of the
algorithm. -/
theorem c3_ticks_within_bounds (rows : List AugRow)
    (h0 : 0 < (xRange rows).1) :
    ∀ t ∈ synthTicks (xRange rows).1 (xRange rows).2,
      (xRange rows).1 ≤ t ∧ t ≤ (xRange rows).2 := by
  have hle : (xRange rows).1 ≤ (xRange rows).2 := xRange_fst_le_snd rows
  intro t ht
  rw [synthTicks] at ht
  by_cases hc : (tickCands (xRange rows).1 (xRange rows).2).length = 0
  · rw [if_pos hc] at ht
    exact mem_fallbackTicks _ _ h0 hle t ht
  · rw [if_neg hc, tickCands] at ht
    by_cases hf : 12 < (fullFiltered (xRange rows).1 (xRange rows).2).length
    · rw [if_pos hf, reducedFiltered] at ht
      exact mem_filterRange _ _ _ _ ht
    · rw [if_neg hf, fullFiltered] at ht
      exact mem_filterRange _ _ _ _ ht

/-- Witness for C3 on the empty dataset, whose range defaults to [1, 1]. -/
theorem c3_ticks_within_bounds_witness :
    (0 : ℝ) < (xRange []).1 ∧
    (∀ t ∈ synthTicks (xRange []).1 (xRange []).2,
      (xRange []).1 ≤ t ∧ t ≤ (xRange []).2) := by
  have h0 : (0 : ℝ) < (xRange []).1 := by
    show (0 : ℝ) < 1
    norm_num
  exact ⟨h0, c3_ticks_within_bounds [] h0⟩

/-- The x range of the negative dataset is [-5, -3]. -/
lemma xRange_negCiRow : xRange [negCiRow] = (-5, -3) := by
  have h : allX [negCiRow] = [-5, -3, -3] := rfl
  simp only [xRange, h, List.foldl_cons, List.foldl_nil]
  norm_num [min_def, max_def]

/-- The lowest decade for the negative minimum clamps to -12. -/
lemma decadeMin_neg5 : decadeMin (-5) = -12 := by
  rw [decadeMin, (by norm_num : max (-5 : ℝ) 1e-12 = 1e-12)]
  exact floor_logb10_eq 1e-12 (-12) (by norm_num) (by norm_num) (by norm_num)

/-- The highest decade for the negative maximum clamps to -12. -/
lemma decadeMax_neg3 : decadeMax (-3) = -12 := by
  rw [decadeMax, (by norm_num : max (-3 : ℝ) 1e-12 = 1e-12)]
  exact ceil_logb10_eq 1e-12 (-12) (by norm_num) (by norm_num) (by norm_num)

/-- No full-mantissa candidate survives the negative range filter. -/
lemma fullFiltered_neg : fullFiltered (-5) (-3) = [] := by
  rw [fullFiltered, decadeMin_neg5, decadeMax_neg3, genCandidates,
    (by decide : decadeList (-12) (-12) = [-12])]
  norm_num [mantissasFull, List.flatMap, filterRange, List.filter_cons]

/-- The negative range falls through to the fallback ticks. -/
lemma synthTicks_neg : synthTicks (-5) (-3) = fallbackTicks (-5) (-3) := by
  have hc : tickCands (-5) (-3) = [] := by
    rw [tickCands, fullFiltered_neg]
    rw [if_neg]
    simp
  rw [synthTicks, hc]
  simp

/-- The first fallback tick on [-5, -3] is 5, far outside the range. -/
lemma five_mem_fallback_neg : (5 : ℝ) ∈ fallbackTicks (-5) (-3) := by
  rw [fallbackTicks]
  refine List.mem_map.mpr ⟨0, List.mem_range.mpr (Nat.succ_pos _), ?_⟩
  show (10 : ℝ) ^ (Real.logb 10 (-5) +
      (((0 : ℕ) : ℝ) / ((fallbackSteps (-5) (-3) : ℤ) : ℝ)) *
        (Real.logb 10 (-3) - Real.logb 10 (-5))) = 5
  rw [Nat.cast_zero, zero_div, zero_mul, add_zero, Real.logb_neg_eq_logb]
  exact Real.rpow_logb (by norm_num) (by norm_num) (by norm_num)

/-- C3 counterexample: on the dataset of negative values the fallback path
produces the tick 5, which lies outside the dataset range [-5, -3]. -/
theorem c3_counterexample :
    xRange [negCiRow] = (-5, -3) ∧
    ∃ t ∈ synthTicks (-5) (-3), ¬((-5 : ℝ) ≤ t ∧ t ≤ -3) := by
  refine ⟨xRange_negCiRow, 5, ?_, ?_⟩
  · rw [synthTicks_neg]
    exact five_mem_fallback_neg
  · intro hcon
    have := hcon.2
    norm_num at this

/-- A left min-fold lands on its seed or on a list element. -/
lemma foldl_min_mem (l : List ℝ) : ∀ a : ℝ, l.foldl min a ∈ a :: l := by
  induction l with
  | nil => intro a; exact List.mem_cons_self _ _
  | cons b t ih =>
    intro a
    have h := ih (min a b)
    rcases List.mem_cons.mp h with hh | hh
    · rcases min_choice a b with hab | hab
      · exact List.mem_cons.mpr (Or.inl (by rw [List.foldl_cons, hh]; exact hab))
      · refine List.mem_cons.mpr (Or.inr ?_)
        exact List.mem_cons.mpr (Or.inl (by rw [List.foldl_cons, hh]; exact hab))
    · exact List.mem_cons.mpr (Or.inr (List.mem_cons.mpr (Or.inr hh)))

/-- A left max-fold lands on its seed or on a list element. -/
lemma foldl_max_mem (l : List ℝ) : ∀ a : ℝ, l.foldl max a ∈ a :: l := by
  induction l with
  | nil => intro a; exact List.mem_cons_self _ _
  | cons b t ih =>
    intro a
    have h := ih (max a b)
    rcases List.mem_cons.mp h with hh | hh
    · rcases max_choice a b with hab | hab
      · exact List.mem_cons.mpr (Or.inl (by rw [List.foldl_cons, hh]; exact hab))
      · refine List.mem_cons.mpr (Or.inr ?_)
        exact List.mem_cons.mpr (Or.inl (by rw [List.foldl_cons, hh]; exact hab))
    · exact List.mem_cons.mpr (Or.inr (List.mem_cons.mpr (Or.inr hh)))

/-- C4 (amended): the range is computed over the present values exactly as
collected, with no positive clamping at this stage: the empty collection
falls back to (1, 1); the minimum bounds every collected value from below
and the maximum from above; and on a nonempty collection both are
themselves collected values. -/
theorem c4_range_over_collected_values (rows : List AugRow) :
    (allX rows = [] → xRange rows = (1, 1)) ∧
    (∀ v ∈ allX rows, (xRange rows).1 ≤ v ∧ v ≤ (xRange rows).2) ∧
    (allX rows ≠ [] → (xRange rows).1 ∈ allX rows ∧ (xRange rows).2 ∈ allX rows) := by
  refine ⟨?_, ?_, ?_⟩
  · intro h
    simp [xRange, h]
  · intro v hv
    cases h : allX rows with
    | nil => rw [h] at hv; cases hv
    | cons a l =>
      rw [h] at hv
      simp only [xRange, h]
      rcases List.mem_cons.mp hv with rfl | hv
      · exact ⟨foldl_min_le_self l v, le_foldl_max l v⟩
      · exact ⟨foldl_min_le_of_mem l a v hv, mem_le_foldl_max l a v hv⟩
  · intro h
    cases hx : allX rows with
    | nil => exact absurd hx h
    | cons a l =>
      simp only [xRange, hx]
      exact ⟨foldl_min_mem l a, foldl_max_mem l a⟩

/-- C4 counterexample: the code's minimum over the dataset with the lone
value -5 is -5 itself, which is negative; a minimum over positive-clamped
values, as the claim states, would be the positive 1e-12. -/
theorem c4_counterexample :
    (xRange [negEffectRow]).1 = -5 ∧ (xRange [negEffectRow]).1 < 0 ∧
    (xRangeClamped [negEffectRow]).1 = 1e-12 ∧
    xRange [negEffectRow] ≠ xRangeClamped [negEffectRow] := by
  have hx : allX [negEffectRow] = [-5] := rfl
  have hcode : xRange [negEffectRow] = (-5, -5) := by
    simp [xRange, hx]
  have hmap : (allX [negEffectRow]).map (fun v => max v 1e-12) = [(1e-12 : ℝ)] := by
    rw [hx]
    simp only [List.map_cons, List.map_nil]
    norm_num
  have hspec : xRangeClamped [negEffectRow] = (1e-12, 1e-12) := by
    simp [xRangeClamped, hmap]
  refine ⟨by rw [hcode], by rw [hcode]; norm_num, by rw [hspec], ?_⟩
  rw [hcode, hspec]
  intro hcon
  have h1 : (-5 : ℝ) = 1e-12 := congrArg Prod.fst hcon
  norm_num at h1

/-- Witness for C4: the empty dataset takes the (1, 1) fallback, and on the
lone-value dataset the computed minimum is a collected value. -/
theorem c4_range_over_collected_values_witness :
    xRange [] = (1, 1) ∧ (xRange [negEffectRow]).1 ∈ allX [negEffectRow] := by
  refine ⟨(c4_range_over_collected_values []).1 rfl, ?_⟩
  refine ((c4_range_over_collected_values [negEffectRow]).2.2 ?_).1
  intro hcon
  have : ([] : List ℝ).length = 1 := by
    rw [← hcon]
    rfl
  cases this

/-- C6: with the mirror option the tick plan is exactly the element-wise
reversal of the unmirrored plan, for the values and the labels alike, and
the set of tick values is unchanged. -/
theorem c6_mirror_reverses_tick_plan (rows : List AugRow) :
    tickvals true rows = (tickvals false rows).reverse ∧
    ticktext true rows = (ticktext false rows).reverse ∧
    (∀ v : ℝ, v ∈ tickvals true rows ↔ v ∈ tickvals false rows) := by
  refine ⟨?_, ?_, ?_⟩ <;> simp [tickvals, ticktext, List.mem_reverse]

/-- The label of 0.3 is ".3". -/
lemma fmtVal_03 : fmtVal 0.3 = ".3" := by
  rw [fmtVal, if_neg (by norm_num : ¬((1 : ℝ) ≤ 0.3)),
    if_pos (by norm_num : (0.1 : ℝ) ≤ 0.3), toFixed]
  have hr : round ((0.3 : ℝ) * 10 ^ (1 : ℕ)) = 3 := by
    norm_num [round_eq]
  rw [hr]
  decide

/-- The label of 0.05 is ".05". -/
lemma fmtVal_005 : fmtVal 0.05 = ".05" := by
  rw [fmtVal, if_neg (by norm_num : ¬((1 : ℝ) ≤ 0.05)),
    if_neg (by norm_num : ¬((0.1 : ℝ) ≤ 0.05)), toFixed]
  have hr : round ((0.05 : ℝ) * 10 ^ (2 : ℕ)) = 5 := by
    norm_num [round_eq]
  rw [hr]
  decide

/-- The label of the exact integer 2 is "2". -/
lemma fmtVal_2 : fmtVal 2 = "2" := by
  have hf : ⌊(2 : ℝ)⌋ = 2 := by norm_num
  rw [fmtVal, if_pos (by norm_num : (1 : ℝ) ≤ 2), if_pos (by rw [hf]; norm_num), hf]
  decide

/-- C8 (amended): at or above one, exact integers label as plain integer
strings, and other values label as their one-decimal rounding with a
trailing .0 dropped, so they may also label as integer strings; below one
the label is the leading-zero-stripped toFixed rendering with one decimal
at or above 0.1 and two decimals below; in particular 0.3 labels as ".3",
0.05 as ".05" and 2 as "2". -/
theorem c8_tick_label_formatting (v : ℝ) :
    (1 ≤ v →
      (((⌊v⌋ : ℝ) = v → fmtVal v = toString ⌊v⌋) ∧
      ((⌊v⌋ : ℝ) ≠ v →
        (round (v * 10) % 10 = 0 → fmtVal v = toString (round (v * 10) / 10)) ∧
        (round (v * 10) % 10 ≠ 0 → fmtVal v =
          toString (round (v * 10) / 10) ++ "." ++ toString (round (v * 10) % 10))))) ∧
    (¬(1 ≤ v) →
      fmtVal v = stripLeadingZero (toFixed (if (0.1 : ℝ) ≤ v then 1 else 2) v)) ∧
    fmtVal 0.3 = ".3" ∧ fmtVal 0.05 = ".05" ∧ fmtVal 2 = "2" := by
  refine ⟨?_, ?_, fmtVal_03, fmtVal_005, fmtVal_2⟩
  · intro h1
    constructor
    · intro hint
      rw [fmtVal, if_pos h1, if_pos hint]
    · intro hnotint
      constructor
      · intro hmod
        rw [fmtVal, if_pos h1, if_neg hnotint, if_pos hmod]
      · intro hmod
        rw [fmtVal, if_pos h1, if_neg hnotint, if_neg hmod]
  · intro h1
    rw [fmtVal, if_neg h1]

/-- Witness for C8 at the values 2 (integer branch) and 0.3 (below-one
branch). -/
theorem c8_tick_label_formatting_witness :
    fmtVal 2 = toString ⌊(2 : ℝ)⌋ ∧
    fmtVal 0.3 = stripLeadingZero (toFixed (if (0.1 : ℝ) ≤ 0.3 then 1 else 2) 0.3) := by
  constructor
  · exact ((c8_tick_label_formatting 2).1 (by norm_num)).1 (by norm_num)
  · exact (c8_tick_label_formatting 0.3).2.1 (by norm_num)

/-- The lowest decade of the 3.01 minimum is 0. -/
lemma decadeMin_301 : decadeMin 3.01 = 0 := by
  rw [decadeMin, (by norm_num : max (3.01 : ℝ) 1e-12 = 3.01)]
  exact floor_logb10_eq 3.01 0 (by norm_num) (by norm_num) (by norm_num)

/-- The highest decade of the 3.02 maximum is 1. -/
lemma decadeMax_302 : decadeMax 3.02 = 1 := by
  rw [decadeMax, (by norm_num : max (3.02 : ℝ) 1e-12 = 3.02)]
  exact ceil_logb10_eq 3.02 1 (by norm_num) (by norm_num) (by norm_num)

/-- No full-mantissa candidate falls inside [3.01, 3.02]. -/
lemma fullFiltered_301_302 : fullFiltered 3.01 3.02 = [] := by
  rw [fullFiltered, decadeMin_301, decadeMax_302, genCandidates,
    (by decide : decadeList 0 1 = [0, 1])]
  norm_num [mantissasFull, List.flatMap, filterRange, List.filter_cons]

/-- The narrow range [3.01, 3.02] falls through to the fallback ticks. -/
lemma synthTicks_301_302 : synthTicks 3.01 3.02 = fallbackTicks 3.01 3.02 := by
  have hc : tickCands 3.01 3.02 = [] := by
    rw [tickCands, fullFiltered_301_302]
    rw [if_neg]
    simp
  rw [synthTicks, hc]
  simp

/-- The first fallback tick on [3.01, 3.02] is 3.01 itself. -/
lemma mem_fallback_301 : (3.01 : ℝ) ∈ fallbackTicks 3.01 3.02 := by
  rw [fallbackTicks]
  refine List.mem_map.mpr ⟨0, List.mem_range.mpr (Nat.succ_pos _), ?_⟩
  show (10 : ℝ) ^ (Real.logb 10 3.01 +
      (((0 : ℕ) : ℝ) / ((fallbackSteps 3.01 3.02 : ℤ) : ℝ)) *
        (Real.logb 10 3.02 - Real.logb 10 3.01)) = 3.01
  rw [Nat.cast_zero, zero_div, zero_mul, add_zero]
  exact Real.rpow_logb (by norm_num) (by norm_num) (by norm_num)

/-- The label of the non-integer 3.01 collapses to the integer string "3". -/
lemma fmtVal_301 : fmtVal 3.01 = "3" := by
  have hf : ⌊(3.01 : ℝ)⌋ = 3 := by
    rw [Int.floor_eq_iff]
    norm_num
  have hr : round ((3.01 : ℝ) * 10) = 30 := by
    norm_num [round_eq]
  rw [fmtVal, if_pos (by norm_num : (1 : ℝ) ≤ 3.01),
    if_neg (by rw [hf]; norm_num), hr, if_pos (by decide)]
  decide

/-- The claim's formatter keeps the decimal: 3.01 labels as "3.0". -/
lemma fmtValSpec_301 : fmtValSpec 3.01 = "3.0" := by
  have hf : ⌊(3.01 : ℝ)⌋ = 3 := by
    rw [Int.floor_eq_iff]
    norm_num
  have hr : round ((3.01 : ℝ) * 10) = 30 := by
    norm_num [round_eq]
  rw [fmtValSpec, if_pos (by norm_num : (1 : ℝ) ≤ 3.01),
    if_neg (by rw [hf]; norm_num), hr]
  decide

/-- C8 counterexample: the value 3.01 is a realizable tick (the dataset
range [3.01, 3.02] produces it on the fallback path), it is at least one
and not an integer, yet the code labels it "3" - an integer string with no
decimal place - where the claimed rule would label it "3.0". -/
theorem c8_counterexample :
    (3.01 : ℝ) ∈ synthTicks 3.01 3.02 ∧
    (1 : ℝ) ≤ 3.01 ∧ (⌊(3.01 : ℝ)⌋ : ℝ) ≠ 3.01 ∧
    fmtVal 3.01 = "3" ∧ fmtValSpec 3.01 = "3.0" ∧
    fmtVal 3.01 ≠ fmtValSpec 3.01 := by
  refine ⟨?_, by norm_num, ?_, fmtVal_301, fmtValSpec_301, ?_⟩
  · rw [synthTicks_301_302]
    exact mem_fallback_301
  · have hf : ⌊(3.01 : ℝ)⌋ = 3 := by
      rw [Int.floor_eq_iff]
      norm_num
    rw [hf]
    norm_num
  · rw [fmtVal_301, fmtValSpec_301]
    decide

end ForestPlot
